import Mathlib

/-!
# Verification of the ceda streaming-pipeline DV harness

Shallow embedding of the cocotb verification harness of the `ceda`
repository (`dv/cocotb/models/gaussian_model.py` and the tests under
`dv/cocotb/tests/`), together with theorems settling the specification
claims about it.

Conventions:
* `uint8` pixel data is embedded as `ℕ` (all arithmetic in the sources is
  on non-negative int32 values well below overflow, so `ℕ` is faithful);
  signed intermediate index arithmetic uses `ℤ`.
* a possibly-unresolved 4-state signal sample is `Option ℕ`
  (`none` = `x`/`z`, i.e. Python `int()` raises `ValueError`);
* Python floats produced by `np.mean` are embedded as `ℚ` (every mean in
  the harness is a quotient of small integers);
* code that can raise is embedded in `Except`.
-/

namespace Ceda

/-! ## Golden model: `dv/cocotb/models/gaussian_model.py` -/

/-- `GAUSSIAN_KERNEL`: the fixed 5x5 Gaussian kernel (sigma ~ 1.0, sum = 256). -/
def gaussian_kernel : List (List ℕ) :=
  [[1,  4,  6,  4, 1],
   [4, 16, 24, 16, 4],
   [6, 24, 36, 24, 6],
   [4, 16, 24, 16, 4],
   [1,  4,  6,  4, 1]]

/-- Coefficient lookup in `GAUSSIAN_KERNEL` (row `i`, column `j`). -/
def kcoef (i j : ℕ) : ℕ := (gaussian_kernel.getD i []).getD j 0

/-- Index clamping performed by `scipy.ndimage.convolve(..., mode='nearest')`:
an out-of-range index is replaced by the nearest valid index
(replicate-edge policy). -/
def clampIdx (n : ℕ) (v : ℤ) : ℕ := (min (max v 0) ((n : ℤ) - 1)).toNat

/-- One output sample of `scipy.ndimage.convolve(img, GAUSSIAN_KERNEL,
mode='nearest')` at row `r`, column `c` of an `h × w` image.  `ndimage`
computes a true convolution: the kernel is flipped, so the tap `(i, j)`
multiplies the image sample at `(r + 2 - i, c + 2 - j)` (kernel origin at
its centre `(2, 2)`), with replicate-edge index clamping. -/
def convolveNearestAt (h w : ℕ) (img : ℕ → ℕ → ℕ) (r c : ℕ) : ℕ :=
  ∑ i ∈ Finset.range 5, ∑ j ∈ Finset.range 5,
    kcoef i j * img (clampIdx h ((r : ℤ) + 2 - (i : ℤ))) (clampIdx w ((c : ℤ) + 2 - (j : ℤ)))

/-- `gaussian_filter_ref(image, use_rounding)` at pixel `(r, c)`:
convolve with the Gaussian kernel (replicate border), normalize by
`(sum + 128) >> 8` (rounding) or `sum >> 8`, clip to `[0, 255]`.
The lower clip of `np.clip(·, 0, 255)` is vacuous on `ℕ`. -/
def gaussian_filter_ref (h w : ℕ) (img : ℕ → ℕ → ℕ) (useRounding : Bool) (r c : ℕ) : ℕ :=
  let s := convolveNearestAt h w img r c
  let n := if useRounding then (s + 128) >>> 8 else s >>> 8
  min n 255

/-- The spec's description of one output pixel: the integer dot product of
the replicate-edge 5x5 window centred at `(r, c)` with the kernel, the tap
`(i, j)` multiplying the window sample at `(r + i - 2, c + j - 2)`
(plain correlation, no kernel flip). -/
def windowDotAt (h w : ℕ) (img : ℕ → ℕ → ℕ) (r c : ℕ) : ℕ :=
  ∑ i ∈ Finset.range 5, ∑ j ∈ Finset.range 5,
    kcoef i j * img (clampIdx h ((r : ℤ) + (i : ℤ) - 2)) (clampIdx w ((c : ℤ) + (j : ℤ) - 2))

/-- `pe_ref(pixel, coeff)`: the reference processing-element product. -/
def pe_ref (pixel coeff : ℤ) : ℤ := pixel * coeff

/-- Modelled from the spec: `mac_step(pixel, coeff, acc_in) → integer`,
`acc_in + pixel*coeff`, no saturation.  The accumulator-threading MAC is
implemented in the RTL `pe` module, which is not under `src/`; only its
combinational product `pe_ref` and its cocotb tests are.  The step is the
spec's `mac_step` built on the in-source `pe_ref`. -/
def mac_step (pixel coeff acc_in : ℤ) : ℤ := acc_in + pe_ref pixel coeff

/-- Chaining MAC steps over paired pixel/coefficient lists starting from
accumulator 0, as `test_pe_chain_simulation` threads `running_sum`. -/
def macChain (pixels coeffs : List ℤ) : ℤ :=
  (List.zip pixels coeffs).foldl (fun acc pc => mac_step pc.1 pc.2 acc) 0

/-- Error raised by `generate_test_image` on an unknown pattern string. -/
inductive ImageGenError where
  | valueError (msg : String)
deriving DecidableEq, Repr

/-- One value of `np.linspace(0, 255, width, dtype=np.uint8)` at index `i`:
`i * 255 / (width - 1)` truncated to an integer (0 when `width ≤ 1`,
matching `linspace`'s single-sample start value). -/
def linspace255 (width i : ℕ) : ℕ := if width ≤ 1 then 0 else i * 255 / (width - 1)

/-- `generate_test_image(width, height, pattern)`.  The `np.random.randint`
source of the `'random'` pattern is abstracted as an explicit generator
`rng : ℕ → ℕ → Fin 256` (randint draws uniformly from `[0, 256)`); the
image is returned as a row list (height-by-width). -/
def generate_test_image (width height : ℕ) (pattern : String) (rng : ℕ → ℕ → Fin 256) :
    Except ImageGenError (List (List ℕ)) :=
  if pattern = "random" then
    .ok ((List.range height).map fun r => (List.range width).map fun c => (rng r c : ℕ))
  else if pattern = "gradient" then
    .ok (List.replicate height ((List.range width).map fun i => linspace255 width i))
  else if pattern = "checkerboard" then
    .ok ((List.range height).map fun r =>
      (List.range width).map fun c => if r % 2 = c % 2 then 255 else 0)
  else if pattern = "uniform" then
    .ok (List.replicate height (List.replicate width 128))
  else
    .error (.valueError ("Unknown pattern: " ++ pattern))

/-! ## Theorems about the golden model -/

/-- `ndimage.convolve` flips the kernel; the spec describes a plain
window/kernel dot product.  The two agree because `GAUSSIAN_KERNEL` is
symmetric under 180-degree rotation. -/
theorem conv_eq_dot (h w : ℕ) (img : ℕ → ℕ → ℕ) (r c : ℕ) :
    convolveNearestAt h w img r c = windowDotAt h w img r c := by
  simp only [convolveNearestAt, windowDotAt, Finset.sum_range_succ, Finset.sum_range_zero,
    kcoef, gaussian_kernel, List.getD_cons_zero, List.getD_cons_succ]
  push_cast
  ring_nf

/-- C1: for every uint8 input frame, `gaussian_filter_ref(frame, rounding)`
equals, at every pixel, the clip to `[0, 255]` of the integer dot product of
the replicate-edge 5x5 window at that pixel with the fixed Gaussian kernel,
normalized as `(sum + 128) >> 8` when rounding is enabled and as `sum >> 8`
otherwise.  Determinism/purity holds by construction: the embedding is a
total function of exactly these inputs. -/
theorem gaussian_ref_matches_window_dot (h w : ℕ) (img : ℕ → ℕ → ℕ) (useRounding : Bool)
    (r c : ℕ) :
    gaussian_filter_ref h w img useRounding r c =
      min ((if useRounding then windowDotAt h w img r c + 128 else windowDotAt h w img r c) >>> 8)
        255 := by
  unfold gaussian_filter_ref
  rw [conv_eq_dot]
  cases useRounding <;> simp

/-- C6: the reference MAC step returns `acc_in + pixel*coeff` with no
saturation, and chaining five steps over pixels `[10,20,30,40,50]` with
coefficients `[1,2,3,4,5]` starting from 0 accumulates to exactly 550. -/
theorem mac_step_and_chain :
    (∀ pixel coeff acc_in : ℤ, mac_step pixel coeff acc_in = acc_in + pixel * coeff) ∧
    macChain [10, 20, 30, 40, 50] [1, 2, 3, 4, 5] = 550 := by
  refine ⟨fun p c a => rfl, ?_⟩
  decide

lemma linspace255_lt (w i : ℕ) (hi : i < w) : linspace255 w i < 256 := by
  unfold linspace255
  split
  · omega
  · rename_i hw
    have h1 : i * 255 ≤ (w - 1) * 255 := Nat.mul_le_mul_right 255 (by omega)
    have h2 : i * 255 / (w - 1) ≤ (w - 1) * 255 / (w - 1) := Nat.div_le_div_right h1
    have h3 : (w - 1) * 255 / (w - 1) = 255 := by
      rw [Nat.mul_div_cancel_left 255 (by omega)]
    omega

/-- C10: for every positive width and height, `generate_test_image` returns
a height-by-width uint8 array for each of the four named patterns
`'random'`, `'gradient'`, `'checkerboard'`, `'uniform'`, and raises
`ValueError` for every other pattern string. -/
theorem generate_test_image_spec (width height : ℕ) (pattern : String) (rng : ℕ → ℕ → Fin 256)
    (hw : 0 < width) (hh : 0 < height) :
    (pattern = "random" ∨ pattern = "gradient" ∨ pattern = "checkerboard" ∨
        pattern = "uniform" →
      ∃ img, generate_test_image width height pattern rng = .ok img ∧
        img.length = height ∧ ∀ row ∈ img, row.length = width ∧ ∀ v ∈ row, v < 256) ∧
    (pattern ≠ "random" → pattern ≠ "gradient" → pattern ≠ "checkerboard" →
        pattern ≠ "uniform" →
      generate_test_image width height pattern rng =
        .error (.valueError ("Unknown pattern: " ++ pattern))) := by
  constructor
  · rintro (rfl | rfl | rfl | rfl)
    · refine ⟨_, rfl, by simp, ?_⟩
      intro row hrow
      simp only [List.mem_map, List.mem_range] at hrow
      obtain ⟨r, _, rfl⟩ := hrow
      refine ⟨by simp, ?_⟩
      intro v hv
      simp only [List.mem_map, List.mem_range] at hv
      obtain ⟨cc, _, rfl⟩ := hv
      exact (rng r cc).isLt
    · refine ⟨_, rfl, by simp, ?_⟩
      intro row hrow
      rw [List.eq_of_mem_replicate hrow]
      refine ⟨by simp, ?_⟩
      intro v hv
      simp only [List.mem_map, List.mem_range] at hv
      obtain ⟨i, hi, rfl⟩ := hv
      exact linspace255_lt width i hi
    · refine ⟨_, rfl, by simp, ?_⟩
      intro row hrow
      simp only [List.mem_map, List.mem_range] at hrow
      obtain ⟨r, _, rfl⟩ := hrow
      refine ⟨by simp, ?_⟩
      intro v hv
      simp only [List.mem_map, List.mem_range] at hv
      obtain ⟨cc, _, rfl⟩ := hv
      split <;> omega
    · refine ⟨_, rfl, by simp, ?_⟩
      intro row hrow
      rw [List.eq_of_mem_replicate hrow]
      refine ⟨by simp, ?_⟩
      intro v hv
      rw [List.eq_of_mem_replicate hv]
      omega
  · intro h1 h2 h3 h4
    unfold generate_test_image
    rw [if_neg h1, if_neg h2, if_neg h3, if_neg h4]

/-- Witness for C10 at concrete inputs. -/
theorem generate_test_image_spec_witness :
    ∃ img, generate_test_image 3 2 "checkerboard" (fun _ _ => 0) = .ok img ∧
      img.length = 2 ∧ ∀ row ∈ img, row.length = 3 ∧ ∀ v ∈ row, v < 256 :=
  (generate_test_image_spec 3 2 "checkerboard" (fun _ _ => 0) (by decide) (by decide)).1
    (Or.inr (Or.inr (Or.inl rfl)))

/-! ## Frame/stream codec and stimulus drivers

`send_frame` in `tests/test_nms.py` and `tests/test_gaussian_stage.py`
iterates rows then columns, driving one beat per pixel with
`s_tuser = (r = 0 ∧ c = 0)` and `s_tlast = (c = width - 1)`, holding the
beat across clock cycles until the sampled `s_tready` is high.
`_stream_frame_and_capture` in `tests/test_gaussian_real_image.py` drives
one pixel per clock edge without consulting `s_tready`. -/

/-- One streamed beat: `{data, last, user}` (`valid` is implicit: these are
the payloads the driver offers / the monitor accepts). -/
structure Beat where
  data : ℕ
  last : Bool
  user : Bool
deriving DecidableEq, Repr

/-- The row-major beat sequence of a `w × h` frame, exactly as the nested
`for row / for col` loops of `send_frame` produce it. -/
def frameBeats (w h : ℕ) (img : ℕ → ℕ → ℕ) : List Beat :=
  (List.range h).flatMap fun r =>
    (List.range w).map fun c =>
      ⟨img r c, decide (c = w - 1), decide (r = 0 ∧ c = 0)⟩

/-- Cycle-accurate model of the `send_frame` drive loop.  Each clock cycle
the driver offers the current head beat; `readys` is the per-cycle sampled
`s_tready`.  When the sampled ready is high the driver advances, otherwise
it re-offers the same beat.  Returns `(driven, accepted)`: the per-cycle
driven beats and the beats actually transferred, in order. -/
def sendFrameDrive (beats : List Beat) (readys : List Bool) : List Beat × List Beat :=
  match readys, beats with
  | [], _ => ([], [])
  | _ :: _, [] => ([], [])
  | rdy :: rs, b :: bs =>
    let next := sendFrameDrive (if rdy then bs else b :: bs) rs
    (b :: next.1, if rdy then b :: next.2 else next.2)

/-- Per-cycle driven beats of the drive loop of
`_stream_frame_and_capture`: the loop sets the input signals for pixel `i`
and awaits exactly one clock edge, advancing unconditionally; it never
reads `s_tready`, so the driven trace is one beat per cycle independent of
the ready trace. -/
def streamFrameDrive (beats : List Beat) (_readys : List Bool) : List Beat := beats

/-- The claim's hold discipline: whenever the sampled ready of cycle `t` is
low, the beat driven at cycle `t + 1` (if any) is the same beat as at
cycle `t`. -/
def holdsUntilReady (driven : List Beat) (readys : List Bool) : Prop :=
  ∀ t x, readys[t]? = some false → driven[t + 1]? = some x → driven[t]? = some x

lemma sendFrameDrive_accepted (beats : List Beat) (readys : List Bool)
    (hcnt : beats.length ≤ readys.countP (· = true)) :
    (sendFrameDrive beats readys).2 = beats := by
  induction readys generalizing beats with
  | nil =>
    simp only [List.countP_nil, Nat.le_zero, List.length_eq_zero] at hcnt
    subst hcnt
    rfl
  | cons rdy rs ih =>
    cases beats with
    | nil => rfl
    | cons b bs =>
      rw [List.countP_cons] at hcnt
      cases rdy with
      | true =>
        have : bs.length ≤ rs.countP (· = true) := by
          simpa using hcnt
        simp [sendFrameDrive, ih bs this]
      | false =>
        have : (b :: bs).length ≤ rs.countP (· = true) := by
          simpa using hcnt
        simp [sendFrameDrive, ih (b :: bs) this]

lemma sendFrameDrive_driven_cons (b : Beat) (bs : List Beat) (rdy : Bool) (rs : List Bool) :
    (sendFrameDrive (b :: bs) (rdy :: rs)).1 =
      b :: (sendFrameDrive (if rdy then bs else b :: bs) rs).1 := rfl

lemma sendFrameDrive_hold (beats : List Beat) (readys : List Bool) :
    holdsUntilReady (sendFrameDrive beats readys).1 readys := by
  induction readys generalizing beats with
  | nil =>
    intro t x hr _
    simp at hr
  | cons rdy rs ih =>
    intro t x hr hx
    cases beats with
    | nil => simp [sendFrameDrive] at hx
    | cons b bs =>
      rw [sendFrameDrive_driven_cons] at hx ⊢
      cases t with
      | zero =>
        have hrdy : rdy = false := by simpa using hr
        subst hrdy
        simp only [Bool.false_eq_true, if_false, List.getElem?_cons_succ,
          List.getElem?_cons_zero] at hx ⊢
        cases rs with
        | nil => simp [sendFrameDrive] at hx
        | cons r2 rs2 =>
          rw [sendFrameDrive_driven_cons, List.getElem?_cons_zero] at hx
          exact hx
      | succ t =>
        simp only [List.getElem?_cons_succ] at hr hx ⊢
        exact ih _ t x hr hx

/-- The nested row/column loops of `send_frame` produce the flat row-major
sequence: beat `i` carries pixel `(i / w, i % w)`, `last` exactly on the
final column of every row, `user` exactly on the very first beat. -/
lemma frameBeats_eq_rowMajor (w h : ℕ) (img : ℕ → ℕ → ℕ) (hw : 1 ≤ w) :
    frameBeats w h img =
      (List.range (w * h)).map fun i =>
        ⟨img (i / w) (i % w), decide (i % w = w - 1), decide (i = 0)⟩ := by
  induction h with
  | zero => simp [frameBeats]
  | succ h ih =>
    rw [frameBeats, List.range_succ, List.flatMap_append, ← frameBeats,
      Nat.mul_succ, List.range_add, List.map_append, ih]
    congr 1
    simp only [List.flatMap_cons, List.flatMap_nil, List.append_nil, List.map_map]
    apply List.map_congr_left
    intro c hc
    rw [List.mem_range] at hc
    have hdiv : (w * h + c) / w = h + c / w := by
      rw [Nat.add_comm (w * h) c, Nat.add_mul_div_left c h (by omega)]
      omega
    have hmod : (w * h + c) % w = c := by
      rw [Nat.add_comm (w * h) c, Nat.add_mul_mod_self_left]
      exact Nat.mod_eq_of_lt hc
    simp only [Function.comp]
    rw [hdiv, hmod]
    have hcd : c / w = 0 := Nat.div_eq_of_lt hc
    rw [hcd, Nat.add_zero]
    congr 1
    simp only [decide_eq_decide, Nat.add_eq_zero, Nat.mul_eq_zero]
    omega

lemma countP_row_last (w : ℕ) (hw : 1 ≤ w) (r : ℕ) (img : ℕ → ℕ → ℕ) :
    (((List.range w).map fun c =>
        (⟨img r c, decide (c = w - 1), decide (r = 0 ∧ c = 0)⟩ : Beat)).countP
      (·.last)) = 1 := by
  rw [List.countP_map]
  obtain ⟨k, rfl⟩ : ∃ k, w = k + 1 := ⟨w - 1, by omega⟩
  rw [List.range_succ, List.countP_append]
  have h1 : (List.range k).countP
      ((fun b : Beat => b.last) ∘ fun c =>
        (⟨img r c, decide (c = k + 1 - 1), decide (r = 0 ∧ c = 0)⟩ : Beat)) = 0 := by
    rw [List.countP_eq_zero]
    intro c hc
    rw [List.mem_range] at hc
    simp only [Function.comp]
    simp only [decide_eq_true_eq]
    omega
  rw [h1]
  simp

lemma countP_row_user (w : ℕ) (hw : 1 ≤ w) (r : ℕ) (img : ℕ → ℕ → ℕ) :
    (((List.range w).map fun c =>
        (⟨img r c, decide (c = w - 1), decide (r = 0 ∧ c = 0)⟩ : Beat)).countP
      (·.user)) = if r = 0 then 1 else 0 := by
  rw [List.countP_map]
  obtain ⟨k, rfl⟩ : ∃ k, w = k + 1 := ⟨w - 1, by omega⟩
  rw [List.range_succ_eq_map, List.countP_cons, List.countP_map, List.countP_eq_zero.2]
  · by_cases hr : r = 0 <;> simp [hr]
  · intro c _
    simp only [Function.comp]
    simp only [decide_eq_true_eq]
    omega

/-- Modelled from the spec: the fully-drained output stream of the
convolution pipeline for a `W × H` frame.  The pipeline RTL itself is not
under `src/` (only its cocotb tests are); per the spec a fully-drained run
of the pipeline produces one output beat per pixel in row-major order with
the end-of-row marker on the final column of every row and the
start-of-frame marker on the very first beat, i.e. the row-major beat
stream of the `W × H` output image. -/
def pipelineDrainedOutput (w h : ℕ) (out : ℕ → ℕ → ℕ) : List Beat :=
  frameBeats w h out

lemma frameBeats_length (w h : ℕ) (img : ℕ → ℕ → ℕ) :
    (frameBeats w h img).length = w * h := by
  induction h with
  | zero => simp [frameBeats]
  | succ h ih =>
    rw [frameBeats, List.range_succ, List.flatMap_append, ← frameBeats,
      List.flatMap_cons, List.flatMap_nil, List.append_nil, List.length_append, ih]
    simp [Nat.mul_succ]

lemma frameBeats_countLast (w h : ℕ) (img : ℕ → ℕ → ℕ) (hw : 1 ≤ w) :
    (frameBeats w h img).countP (·.last) = h := by
  induction h with
  | zero => simp [frameBeats]
  | succ h ih =>
    rw [frameBeats, List.range_succ, List.flatMap_append, ← frameBeats,
      List.flatMap_cons, List.flatMap_nil, List.append_nil, List.countP_append, ih,
      countP_row_last w hw h img]

lemma frameBeats_countUser (w h : ℕ) (img : ℕ → ℕ → ℕ) (hw : 1 ≤ w) :
    (frameBeats w h img).countP (·.user) = if h = 0 then 0 else 1 := by
  induction h with
  | zero => simp [frameBeats]
  | succ h ih =>
    rw [frameBeats, List.range_succ, List.flatMap_append, ← frameBeats,
      List.flatMap_cons, List.flatMap_nil, List.append_nil, List.countP_append, ih,
      countP_row_user w hw h img]
    by_cases hh : h = 0 <;> simp [hh]

/-- C7: a fully-drained run captures exactly `W*H` output beats, counts
`last` exactly `H` times and `user` exactly once.  (The harness counts the
markers by summing the captured 1-bit flags, which is `countP` here.) -/
theorem pipeline_drained_counts (w h : ℕ) (out : ℕ → ℕ → ℕ) (hw : 1 ≤ w) (hh : 1 ≤ h) :
    (pipelineDrainedOutput w h out).length = w * h ∧
    (pipelineDrainedOutput w h out).countP (·.last) = h ∧
    (pipelineDrainedOutput w h out).countP (·.user) = 1 := by
  unfold pipelineDrainedOutput
  refine ⟨frameBeats_length w h out, frameBeats_countLast w h out hw, ?_⟩
  rw [frameBeats_countUser w h out hw]
  have : h ≠ 0 := by omega
  simp [this]

/-- Witness for C7 at a concrete 2×2 frame. -/
theorem pipeline_drained_counts_witness :
    (pipelineDrainedOutput 2 2 fun r c => r + c).length = 2 * 2 ∧
    (pipelineDrainedOutput 2 2 fun r c => r + c).countP (·.last) = 2 ∧
    (pipelineDrainedOutput 2 2 fun r c => r + c).countP (·.user) = 1 :=
  pipeline_drained_counts 2 2 (fun r c => r + c) (by decide) (by decide)

/-- C4 counterexample: the claim quantifies over every cited stimulus
driver, but the drive loop of `_stream_frame_and_capture`
(`test_gaussian_real_image.py`) advances to the next pixel on every clock
edge without sampling the consumer's ready.  For the 1×2 frame `[5, 7]`
under a ready trace that is low on cycle 0, the beat driven at cycle 1
differs from the un-accepted beat of cycle 0, so the hold-until-ready
discipline fails. -/
theorem stream_frame_drive_not_held :
    ¬ holdsUntilReady
        (streamFrameDrive (frameBeats 2 1 fun _ c => 5 + 2 * c) [false, false])
        [false, false] := by
  intro hh
  exact absurd (hh 0 ⟨7, true, false⟩ (by decide) (by decide)) (by decide)

/-- C4 (amended): the `send_frame` drivers (`test_nms.py`,
`test_gaussian_stage.py`) issue exactly one beat per grid pixel in
row-major order, assert `user` only on the very first beat and `last`
exactly on the final column of every row, and hold each beat constant
across cycles until the sampled ready is high, never dropping or mutating
an un-accepted beat; the real-image streamer does not implement the hold
discipline (see the counterexample). -/
theorem send_frame_driver_correct (w h : ℕ) (img : ℕ → ℕ → ℕ) (readys : List Bool)
    (hw : 1 ≤ w) (hcnt : (frameBeats w h img).length ≤ readys.countP (· = true)) :
    (sendFrameDrive (frameBeats w h img) readys).2 = frameBeats w h img ∧
    frameBeats w h img =
      ((List.range (w * h)).map fun i =>
        ⟨img (i / w) (i % w), decide (i % w = w - 1), decide (i = 0)⟩) ∧
    holdsUntilReady (sendFrameDrive (frameBeats w h img) readys).1 readys :=
  ⟨sendFrameDrive_accepted _ _ hcnt, frameBeats_eq_rowMajor w h img hw,
    sendFrameDrive_hold _ _⟩

/-- Witness for C4 (amended) on a 2×1 frame with a stall in the middle. -/
theorem send_frame_driver_correct_witness :
    (sendFrameDrive (frameBeats 2 1 fun _ c => c) [true, false, true]).2 =
      frameBeats 2 1 (fun _ c => c) ∧
    frameBeats 2 1 (fun _ c => c) =
      ((List.range (2 * 1)).map fun i =>
        ⟨(fun _ c => c : ℕ → ℕ → ℕ) (i / 2) (i % 2), decide (i % 2 = 2 - 1),
          decide (i = 0)⟩) ∧
    holdsUntilReady (sendFrameDrive (frameBeats 2 1 fun _ c => c) [true, false, true]).1
      [true, false, true] :=
  send_frame_driver_correct 2 1 (fun _ c => c) [true, false, true] (by decide) (by decide)

/-! ## Output monitor: `_check_axi_sideband` / `_capture_handshake_output`
(`tests/test_nms.py`) and the real-image capture path
(`tests/test_gaussian_real_image.py`) -/

/-- Exceptions the per-cycle monitoring code can raise.  `valueError` is
Python's `int()` applied to an unresolved (x/z) signal value; the two
sideband constructors are the dedicated `assert` diagnostics of
`_check_axi_sideband`, distinct from any value-mismatch failure. -/
inductive MonErr where
  | valueError
  | lastWithoutValid
  | userWithoutValid
deriving DecidableEq, Repr

/-- Python `int(signal.value)`: yields the integer when the sampled signal
is resolved, raises `ValueError` when it is unresolved. -/
def pyInt : Option ℕ → Except MonErr ℕ
  | some n => .ok n
  | none => .error .valueError

/-- `_try_int(v)` (`test_gaussian_real_image.py`): `int(v)`, catching
`ValueError` and returning `None` for unresolved values. -/
def try_int : Option ℕ → Option ℕ
  | some n => some n
  | none => none

/-- `_check_axi_sideband(dut)`: reads `m_tvalid`, `m_tlast`, `m_tuser`
with `int(...)` and asserts that no sideband signal is high while valid is
low (`last` checked first, then `user`). -/
def check_axi_sideband (mValid mLast mUser : Option ℕ) : Except MonErr Unit := do
  let v ← pyInt mValid
  let l ← pyInt mLast
  let u ← pyInt mUser
  if l ≠ 0 ∧ v = 0 then throw MonErr.lastWithoutValid
  else if u ≠ 0 ∧ v = 0 then throw MonErr.userWithoutValid
  else pure ()

/-- `_capture_handshake_output(dut, outputs)`: appends a beat to the
captured stream exactly when both `m_tvalid` and `m_tready` are non-zero
in the sampled cycle. -/
def capture_handshake_output (mValid mReady mData mLast mUser : Option ℕ)
    (outputs : List Beat) : Except MonErr (List Beat) := do
  let v ← pyInt mValid
  let r ← pyInt mReady
  if v ≠ 0 ∧ r ≠ 0 then
    let d ← pyInt mData
    let l ← pyInt mLast
    let u ← pyInt mUser
    pure (outputs ++ [⟨d, decide (l ≠ 0), decide (u ≠ 0)⟩])
  else
    pure outputs

/-- One monitored cycle of the NMS harness (`send_frame`/`sample_idle`):
after each rising edge it runs `_check_axi_sideband` and then
`_capture_handshake_output`. -/
def nmsMonitorStep (mValid mReady mData mLast mUser : Option ℕ) (outputs : List Beat) :
    Except MonErr (List Beat) := do
  check_axi_sideband mValid mLast mUser
  capture_handshake_output mValid mReady mData mLast mUser outputs

/-- Contract of the NMS per-cycle monitor on resolved signals: it fails
with a sideband-specific diagnostic exactly when `last` or `user` is high
while `valid` is low, and otherwise appends a beat to the captured stream
exactly when both `valid` and `ready` hold in that cycle. -/
lemma nms_monitor_contract (v r d l u : ℕ) (outputs : List Beat) :
    nmsMonitorStep (some v) (some r) (some d) (some l) (some u) outputs =
      if l ≠ 0 ∧ v = 0 then .error MonErr.lastWithoutValid
      else if u ≠ 0 ∧ v = 0 then .error MonErr.userWithoutValid
      else .ok (if v ≠ 0 ∧ r ≠ 0 then
          outputs ++ [⟨d, decide (l ≠ 0), decide (u ≠ 0)⟩]
        else outputs) := by
  simp only [nmsMonitorStep, check_axi_sideband, capture_handshake_output, pyInt]
  by_cases h1 : l ≠ 0 ∧ v = 0 <;> by_cases h2 : u ≠ 0 ∧ v = 0 <;>
    by_cases h3 : v ≠ 0 ∧ r ≠ 0 <;>
    simp [h1, h2, h3, Bind.bind, Except.bind, pure, Except.pure, throw, throwThe,
      MonadExceptOf.throw]
  all_goals (split_ifs <;> simp)

/-- One monitored cycle of the `send_frame` hold/flush loops of
`test_gaussian_stage.py` (lines 104-114): after the rising edge, if
`m_tvalid == 1` it appends `int(m_tdata)` to `output_pixels` and bumps the
`m_tlast`/`m_tuser` counts.  The loop never reads `m_tready` for this
decision (the harness drives `m_tready = 1` throughout) and performs no
sideband check; the ready argument is kept to mirror the port the claim
quantifies over. -/
def gaussian_stage_capture (mValid : ℕ) (_mReady : ℕ) (mData mLast mUser : ℕ)
    (pixels : List ℕ) (lastC userC : ℕ) : List ℕ × ℕ × ℕ :=
  if mValid = 1 then
    (pixels ++ [mData],
      if mLast = 1 then lastC + 1 else lastC,
      if mUser = 1 then userC + 1 else userC)
  else (pixels, lastC, userC)

/-- C5 counterexample: the claim's cited gaussian-stage monitoring path
(`send_frame`, `test_gaussian_stage.py` lines 104-114) violates both
halves of the claim: on a cycle with `valid = 1` and `ready = 0` it still
appends the beat (the claim says a beat is appended exactly when both
valid and ready hold), and on a cycle with `valid = 0` and `last = 1` it
fails nothing and silently records nothing (the claim says the monitor
fails immediately with a sideband-specific diagnostic). -/
theorem gaussian_stage_monitor_counterexample :
    (gaussian_stage_capture 1 0 7 0 0 [] 0 0).1 = [7] ∧
    gaussian_stage_capture 0 1 7 1 0 [] 0 0 = ([], 0, 0) := by
  decide

/-- C5 (amended): each cycle, the NMS output monitor
(`_check_axi_sideband` / `_capture_handshake_output`) fails immediately
with a sideband-specific diagnostic (distinct from a value mismatch)
whenever `last` or `user` is high while `valid` is low, and otherwise
appends a beat exactly when both `valid` and `ready` hold in that cycle;
the gaussian-stage `send_frame` capture path instead appends a beat
whenever `valid` alone is high (its harness holds `m_tready` at 1) and
performs no sideband check. -/
theorem output_monitor_contract (v r d l u : ℕ) (outputs : List Beat)
    (pixels : List ℕ) (lastC userC : ℕ) :
    (nmsMonitorStep (some v) (some r) (some d) (some l) (some u) outputs =
      if l ≠ 0 ∧ v = 0 then .error MonErr.lastWithoutValid
      else if u ≠ 0 ∧ v = 0 then .error MonErr.userWithoutValid
      else .ok (if v ≠ 0 ∧ r ≠ 0 then
          outputs ++ [⟨d, decide (l ≠ 0), decide (u ≠ 0)⟩]
        else outputs)) ∧
    (gaussian_stage_capture v r d l u pixels lastC userC =
      if v = 1 then
        (pixels ++ [d],
          if l = 1 then lastC + 1 else lastC,
          if u = 1 then userC + 1 else userC)
      else (pixels, lastC, userC)) :=
  ⟨nms_monitor_contract v r d l u outputs, rfl⟩

/-- C9 counterexample: the claim covers every per-cycle monitoring path,
but the NMS monitor converts signals with a bare `int()`: on an unresolved
`m_tvalid` it propagates `ValueError` instead of recording an unresolved
sentinel. -/
theorem nms_monitor_raises_on_unresolved :
    nmsMonitorStep none (some 1) (some 0) (some 0) (some 0) [] =
      .error MonErr.valueError := rfl

/-- One monitored cycle of `_stream_frame_and_capture`
(`test_gaussian_real_image.py`): if `_try_int(m_tvalid) == 1`, record a
sample — the resolved data value, or the sentinel `(0, unresolved)` when
`m_tdata` is x/z; otherwise record nothing.  Total: never raises. -/
def streamCaptureStep (mValid mData : Option ℕ) : Option (ℕ × Bool) :=
  if try_int mValid = some 1 then
    match try_int mData with
    | some d => some (d, true)
    | none => some (0, false)
  else
    none

/-- C9 (amended): the real-image capture path tolerates unresolved signal
states, recording the sentinel `(0, resolved := false)` for an unresolved
data value and skipping the cycle on an unresolved valid, never raising
(`streamCaptureStep` is total); the NMS sideband/capture path instead
raises `ValueError` on unresolved signals (see the counterexample). -/
theorem stream_capture_sentinels :
    (∀ mData, streamCaptureStep none mData = none) ∧
    streamCaptureStep (some 1) none = some (0, false) ∧
    (∀ d, streamCaptureStep (some 1) (some d) = some (d, true)) :=
  ⟨fun _ => rfl, rfl, fun _ => rfl⟩

/-! ## Drain watchdog: the flush loop of `send_frame`
(`tests/test_gaussian_stage.py`) -/

/-- What the flush loop of `send_frame` returns / logs: the captured
output pixels, the `m_tlast` and `m_tuser` pulse counts, whether the full
output frame was seen (`frame_done`), and the flush cycles consumed. -/
structure DrainResult where
  pixels : List ℕ
  lastCount : ℕ
  userCount : ℕ
  frameDone : Bool
  cycles : ℕ
deriving DecidableEq, Repr

/-- The flush loop of `send_frame`: each cycle `t` samples the output port
(`valid, data, last, user`); on a valid cycle it appends the data beat and
updates the marker counts; `frame_done` is set when an `m_tlast` pulse
brings the count up to the expected line count; the loop runs until
`frame_done` or the cycle budget (`fuel`) is exhausted.  The partially
captured data is returned in every case; budget exhaustion is reported as
`frameDone = false` (the harness logs a warning with the
observed-versus-expected beat and marker counts and proceeds to
comparison). -/
def drainLoop (trace : ℕ → Bool × ℕ × Bool × Bool) (expLines : ℕ) :
    ℕ → ℕ → List ℕ → ℕ → ℕ → DrainResult
  | 0, _, pixels, lastC, userC => ⟨pixels, lastC, userC, false, 0⟩
  | fuel + 1, t, pixels, lastC, userC =>
    let s := trace t
    if s.1 then
      let pixels' := pixels ++ [s.2.1]
      let lastC' := if s.2.2.1 then lastC + 1 else lastC
      let userC' := if s.2.2.2 then userC + 1 else userC
      if s.2.2.1 = true ∧ expLines ≤ lastC' then
        ⟨pixels', lastC', userC', true, 1⟩
      else
        let r := drainLoop trace expLines fuel (t + 1) pixels' lastC' userC'
        ⟨r.pixels, r.lastCount, r.userCount, r.frameDone, r.cycles + 1⟩
    else
      let r := drainLoop trace expLines fuel (t + 1) pixels lastC userC
      ⟨r.pixels, r.lastCount, r.userCount, r.frameDone, r.cycles + 1⟩

/-- `max_flush_cycles = (expected_outputs * 16) + 1024`: the watchdog
cycle budget, 16 times the expected output count plus a fixed floor. -/
def max_flush_cycles (expectedOutputs : ℕ) : ℕ := expectedOutputs * 16 + 1024

/-- The drain phase of `send_frame` for a `w × h` frame: flush with
expected line count `h` under the budget for `w * h` expected outputs,
starting from the streaming-phase counters. -/
def send_frame_drain (trace : ℕ → Bool × ℕ × Bool × Bool) (w h : ℕ)
    (pixels : List ℕ) (lastC userC : ℕ) : DrainResult :=
  drainLoop trace h (max_flush_cycles (w * h)) 0 pixels lastC userC

lemma drainLoop_const_valid_no_last (expLines : ℕ) (fuel : ℕ) :
    ∀ t pixels lastC userC,
      drainLoop (fun _ => (true, 0, false, false)) expLines fuel t pixels lastC userC =
        ⟨pixels ++ List.replicate fuel 0, lastC, userC, false, fuel⟩ := by
  induction fuel with
  | zero => intro t pixels lastC userC; simp [drainLoop]
  | succ fuel ih =>
    intro t pixels lastC userC
    simp only [drainLoop, ih, List.append_assoc]
    simp [List.replicate_succ]

/-- C8 counterexample: reaching the expected total beat count does not
stop the drain.  For a 2×2 frame (4 expected beats, 2 expected lines), a
DUT that keeps `m_tvalid` high but never pulses `m_tlast` makes the flush
loop run the full budget of `4*16 + 1024 = 1088` cycles, capturing 1088
beats — far past the expected total beat count — and end with
`frameDone = false`. -/
theorem drain_ignores_beat_count :
    2 * 2 = 4 ∧
    (send_frame_drain (fun _ => (true, 0, false, false)) 2 2 [] 0 0).pixels.length = 1088 ∧
    (send_frame_drain (fun _ => (true, 0, false, false)) 2 2 [] 0 0).frameDone = false := by
  have h := drainLoop_const_valid_no_last 2 (max_flush_cycles (2 * 2)) 0 [] 0 0
  refine ⟨rfl, ?_, ?_⟩
  · rw [send_frame_drain, h]
    show ([] ++ List.replicate (max_flush_cycles (2 * 2)) 0).length = 1088
    rw [List.nil_append, List.length_replicate, max_flush_cycles]
  · rw [send_frame_drain, h]

/-- C8 (amended): the drain watchdog keeps sampling output beats until the
expected count of end-of-line markers is reached or the cycle budget of 16
times the expected output count plus a fixed floor is exceeded (reaching
the expected total beat count alone does not stop it — see the
counterexample); exceeding the budget is reported as `frameDone = false`,
a warning rather than a failure, and the partially captured data is still
returned for comparison. -/
theorem drain_watchdog_contract (trace : ℕ → Bool × ℕ × Bool × Bool) (expLines fuel t : ℕ)
    (pixels : List ℕ) (lastC userC : ℕ) :
    (drainLoop trace expLines fuel t pixels lastC userC).cycles ≤ fuel ∧
    ((drainLoop trace expLines fuel t pixels lastC userC).frameDone = true →
      expLines ≤ (drainLoop trace expLines fuel t pixels lastC userC).lastCount) ∧
    ((drainLoop trace expLines fuel t pixels lastC userC).frameDone = false →
      (drainLoop trace expLines fuel t pixels lastC userC).cycles = fuel) ∧
    (∃ captured, (drainLoop trace expLines fuel t pixels lastC userC).pixels =
      pixels ++ captured) := by
  induction fuel generalizing t pixels lastC userC with
  | zero =>
    refine ⟨Nat.le_refl 0, ?_, fun _ => rfl, ⟨[], by simp [drainLoop]⟩⟩
    intro hdone
    simp [drainLoop] at hdone
  | succ fuel ih =>
    by_cases hv : (trace t).1 = true
    · by_cases hdone : (trace t).2.2.1 = true ∧
          expLines ≤ (if (trace t).2.2.1 then lastC + 1 else lastC)
      · have heq : drainLoop trace expLines (fuel + 1) t pixels lastC userC =
            ⟨pixels ++ [(trace t).2.1],
              if (trace t).2.2.1 then lastC + 1 else lastC,
              if (trace t).2.2.2 then userC + 1 else userC, true, 1⟩ := by
          simp only [drainLoop]
          rw [if_pos hv, if_pos hdone]
        refine ⟨?_, ?_, ?_, ?_⟩ <;> rw [heq]
        · show 1 ≤ fuel + 1
          omega
        · intro _
          exact hdone.2
        · intro hfd
          simp at hfd
        · exact ⟨[(trace t).2.1], rfl⟩
      · obtain ⟨ih1, ih2, ih3, ⟨cap, ihcap⟩⟩ :=
          ih (t + 1) (pixels ++ [(trace t).2.1])
            (if (trace t).2.2.1 then lastC + 1 else lastC)
            (if (trace t).2.2.2 then userC + 1 else userC)
        have heq : drainLoop trace expLines (fuel + 1) t pixels lastC userC =
            ⟨(drainLoop trace expLines fuel (t + 1) (pixels ++ [(trace t).2.1])
                (if (trace t).2.2.1 then lastC + 1 else lastC)
                (if (trace t).2.2.2 then userC + 1 else userC)).pixels,
              (drainLoop trace expLines fuel (t + 1) (pixels ++ [(trace t).2.1])
                (if (trace t).2.2.1 then lastC + 1 else lastC)
                (if (trace t).2.2.2 then userC + 1 else userC)).lastCount,
              (drainLoop trace expLines fuel (t + 1) (pixels ++ [(trace t).2.1])
                (if (trace t).2.2.1 then lastC + 1 else lastC)
                (if (trace t).2.2.2 then userC + 1 else userC)).userCount,
              (drainLoop trace expLines fuel (t + 1) (pixels ++ [(trace t).2.1])
                (if (trace t).2.2.1 then lastC + 1 else lastC)
                (if (trace t).2.2.2 then userC + 1 else userC)).frameDone,
              (drainLoop trace expLines fuel (t + 1) (pixels ++ [(trace t).2.1])
                (if (trace t).2.2.1 then lastC + 1 else lastC)
                (if (trace t).2.2.2 then userC + 1 else userC)).cycles + 1⟩ := by
          simp only [drainLoop]
          rw [if_pos hv, if_neg hdone]
        refine ⟨?_, ?_, ?_, ?_⟩ <;> rw [heq]
        · exact Nat.succ_le_succ ih1
        · exact ih2
        · intro hfd
          exact congrArg (· + 1) (ih3 hfd)
        · exact ⟨[(trace t).2.1] ++ cap, by rw [show (⟨_, _, _, _, _⟩ : DrainResult).pixels
            = (drainLoop trace expLines fuel (t + 1) (pixels ++ [(trace t).2.1])
                (if (trace t).2.2.1 then lastC + 1 else lastC)
                (if (trace t).2.2.2 then userC + 1 else userC)).pixels from rfl,
              ihcap, List.append_assoc]⟩
    · obtain ⟨ih1, ih2, ih3, ⟨cap, ihcap⟩⟩ := ih (t + 1) pixels lastC userC
      have hv2 : ¬(trace t).1 = true := hv
      have heq : drainLoop trace expLines (fuel + 1) t pixels lastC userC =
          ⟨(drainLoop trace expLines fuel (t + 1) pixels lastC userC).pixels,
            (drainLoop trace expLines fuel (t + 1) pixels lastC userC).lastCount,
            (drainLoop trace expLines fuel (t + 1) pixels lastC userC).userCount,
            (drainLoop trace expLines fuel (t + 1) pixels lastC userC).frameDone,
            (drainLoop trace expLines fuel (t + 1) pixels lastC userC).cycles + 1⟩ := by
        simp only [drainLoop]
        rw [if_neg hv2]
      refine ⟨?_, ?_, ?_, ?_⟩ <;> rw [heq]
      · exact Nat.succ_le_succ ih1
      · exact ih2
      · intro hfd
        exact congrArg (· + 1) (ih3 hfd)
      · exact ⟨cap, ihcap⟩

/-- Witness for C8 (amended) at a concrete always-idle trace. -/
theorem drain_watchdog_contract_witness :
    (drainLoop (fun _ => (false, 0, false, false)) 1 2 0 [] 0 0).cycles ≤ 2 ∧
    ((drainLoop (fun _ => (false, 0, false, false)) 1 2 0 [] 0 0).frameDone = true →
      1 ≤ (drainLoop (fun _ => (false, 0, false, false)) 1 2 0 [] 0 0).lastCount) ∧
    ((drainLoop (fun _ => (false, 0, false, false)) 1 2 0 [] 0 0).frameDone = false →
      (drainLoop (fun _ => (false, 0, false, false)) 1 2 0 [] 0 0).cycles = 2) ∧
    (∃ captured, (drainLoop (fun _ => (false, 0, false, false)) 1 2 0 [] 0 0).pixels =
      [] ++ captured) :=
  drain_watchdog_contract (fun _ => (false, 0, false, false)) 1 2 0 [] 0 0

/-! ## Alignment engine: `_best_alignment_offset`
(`tests/test_gaussian_real_image.py`)

Scores are Python floats there; every score is a mean of small integers,
embedded here as `ℚ`.  `float("inf")` (the initial best error) is embedded
as `none`. -/

/-- `chunk_len = min(2048, sample_len, observed.size)`. -/
def chunkLenOf (n sampleLen : ℕ) : ℕ := min 2048 (min sampleLen n)

/-- The window start positions: only the stream start when the stream fits
in one chunk, otherwise the stream start, two interior points and the
stream end. -/
def startsOf (n chunk : ℕ) : List ℕ :=
  if chunk < n then [0, (n - chunk) / 3, 2 * (n - chunk) / 3, n - chunk] else [0]

/-- The last (largest) window start, `starts[-1]`. -/
def lastStartOf (n chunk : ℕ) : ℕ := if chunk < n then n - chunk else 0

/-- Mean absolute error of one sampled window at window start `start` and
candidate offset `offset`, restricted to resolved samples;
`none` when the window has no resolved sample
(`if not np.any(res): continue`). -/
def windowErr (observed : List ℕ) (resolved : List Bool) (expected : List ℕ)
    (chunk offset start : ℕ) : Option ℚ :=
  let obs := (observed.drop start).take chunk
  let res := (resolved.drop start).take chunk
  let exp := (expected.drop (offset + start)).take chunk
  let diffs : List ℕ := ((obs.zip exp).zip res).filterMap fun x =>
    if x.2 then some (((x.1.1 : ℤ) - (x.1.2 : ℤ)).natAbs) else none
  if diffs.length = 0 then none
  else some ((diffs.map (Nat.cast : ℕ → ℚ)).sum / (diffs.length : ℚ))

/-- Score of one candidate offset: the average of the per-window errors,
skipping windows with no resolved samples; `none` when every window was
skipped (`if not errs: continue`). -/
def scoreOf (observed : List ℕ) (resolved : List Bool) (expected : List ℕ)
    (chunk : ℕ) (starts : List ℕ) (offset : ℕ) : Option ℚ :=
  let errs := starts.filterMap (windowErr observed resolved expected chunk offset)
  if errs.length = 0 then none else some (errs.sum / (errs.length : ℚ))

/-- `err < best_err` with `best_err = float("inf")` embedded as `none`. -/
def ltInf (e : ℚ) : Option ℚ → Bool
  | none => true
  | some b => decide (e < b)

/-- The offset search loop: walk the candidate offsets in order, keep the
best (strictly smaller) score seen so far, and break as soon as the best
error becomes exactly zero. -/
def alignLoop (score : ℕ → Option ℚ) : List ℕ → ℕ → Option ℚ → ℕ × Option ℚ
  | [], bestOff, bestErr => (bestOff, bestErr)
  | o :: os, bestOff, bestErr =>
    match score o with
    | none => alignLoop score os bestOff bestErr
    | some e =>
      if ltInf e bestErr then
        if e = 0 then (o, some e) else alignLoop score os o (some e)
      else alignLoop score os bestOff bestErr

/-- Candidate offsets `range(max_offset + 1)` after the clamp
`max_offset = min(max_offset, expected.size - (starts[-1] + chunk_len))`,
which keeps every shifted window inside the reference; the Python `min`
can go negative, leaving an empty range. -/
def candidateOffsets (n chunk expLen maxOffset : ℕ) : List ℕ :=
  let mo : ℤ := min (maxOffset : ℤ) ((expLen : ℤ) - ((lastStartOf n chunk : ℤ) + (chunk : ℤ)))
  if mo < 0 then [] else List.range (mo.toNat + 1)

/-- The `ValueError`s `_best_alignment_offset` can raise. -/
inductive AlignErr where
  | emptyStreams
  | invalidChunk
deriving DecidableEq, Repr

/-- `_best_alignment_offset(observed, observed_resolved, expected_flat,
max_offset, sample_len)`: raises on empty streams or a degenerate chunk
length, otherwise runs the offset search starting from
`(best_offset, best_err) = (0, inf)`. -/
def best_alignment_offset (observed : List ℕ) (resolved : List Bool) (expected : List ℕ)
    (maxOffset sampleLen : ℕ) : Except AlignErr (ℕ × Option ℚ) :=
  if observed.length = 0 ∨ expected.length = 0 then .error .emptyStreams
  else
    let chunk := chunkLenOf observed.length sampleLen
    if chunk = 0 then .error .invalidChunk
    else
      .ok (alignLoop
        (scoreOf observed resolved expected chunk (startsOf observed.length chunk))
        (candidateOffsets observed.length chunk expected.length maxOffset) 0 none)

lemma windowErr_nonneg (observed : List ℕ) (resolved : List Bool) (expected : List ℕ)
    (chunk offset start : ℕ) (q : ℚ)
    (h : windowErr observed resolved expected chunk offset start = some q) : 0 ≤ q := by
  simp only [windowErr] at h
  split at h
  · exact absurd h (by simp)
  · rw [Option.some_inj] at h
    subst h
    apply div_nonneg
    · apply List.sum_nonneg
      intro x hx
      rw [List.mem_map] at hx
      obtain ⟨d, _, rfl⟩ := hx
      exact Nat.cast_nonneg d
    · exact Nat.cast_nonneg _

lemma scoreOf_nonneg (observed : List ℕ) (resolved : List Bool) (expected : List ℕ)
    (chunk : ℕ) (starts : List ℕ) (offset : ℕ) (q : ℚ)
    (h : scoreOf observed resolved expected chunk starts offset = some q) : 0 ≤ q := by
  simp only [scoreOf] at h
  split at h
  · exact absurd h (by simp)
  · rw [Option.some_inj] at h
    subst h
    apply div_nonneg
    · apply List.sum_nonneg
      intro x hx
      rw [List.mem_filterMap] at hx
      obtain ⟨s, _, hs⟩ := hx
      exact windowErr_nonneg observed resolved expected chunk offset s x hs
    · exact Nat.cast_nonneg _

/-- If the plateau of already-seen offsets is zero-free and offset `z`
scores exactly zero, the loop stops at `z` with error zero. -/
lemma alignLoop_first_zero (score : ℕ → Option ℚ)
    (hnn : ∀ k q, score k = some q → 0 ≤ q) :
    ∀ (pre : List ℕ) (z : ℕ) (post : List ℕ) (bestOff : ℕ) (bestErr : Option ℚ),
      (∀ q, bestErr = some q → 0 < q) →
      (∀ k ∈ pre, score k ≠ some 0) →
      score z = some 0 →
      alignLoop score (pre ++ z :: post) bestOff bestErr = (z, some 0) := by
  intro pre
  induction pre with
  | nil =>
    intro z post bestOff bestErr hbe _ hz
    have hlt : ltInf 0 bestErr = true := by
      cases bestErr with
      | none => rfl
      | some b => simpa [ltInf] using hbe b rfl
    simp [alignLoop, hz, hlt]
  | cons a pre ih =>
    intro z post bestOff bestErr hbe hpre hz
    have ha : score a ≠ some 0 := hpre a (List.mem_cons_self a pre)
    have hpre2 : ∀ k ∈ pre, score k ≠ some 0 := fun k hk =>
      hpre k (List.mem_cons_of_mem a hk)
    cases hsa : score a with
    | none =>
      rw [show alignLoop score ((a :: pre) ++ z :: post) bestOff bestErr =
          alignLoop score (pre ++ z :: post) bestOff bestErr by
        simp [alignLoop, hsa]]
      exact ih z post bestOff bestErr hbe hpre2 hz
    | some e =>
      have he0 : e ≠ 0 := fun h => ha (h ▸ hsa)
      have hepos : 0 < e := lt_of_le_of_ne (hnn a e hsa) (Ne.symm he0)
      by_cases hlt : ltInf e bestErr = true
      · rw [show alignLoop score ((a :: pre) ++ z :: post) bestOff bestErr =
            alignLoop score (pre ++ z :: post) a (some e) by
          simp [alignLoop, hsa, hlt, he0]]
        exact ih z post a (some e)
          (fun q hq => by obtain rfl := Option.some_inj.mp hq; exact hepos) hpre2 hz
      · rw [show alignLoop score ((a :: pre) ++ z :: post) bestOff bestErr =
            alignLoop score (pre ++ z :: post) bestOff bestErr by
          simp [alignLoop, hsa, hlt]]
        exact ih z post bestOff bestErr hbe hpre2 hz

/-- `b ≤ s` on scores where `none` is `float("inf")`. -/
def optLE (b s : Option ℚ) : Prop := ∀ q, s = some q → ∃ qb, b = some qb ∧ qb ≤ q

/-- Without a zero score the loop returns the minimum of the initial best
and all scored offsets, attained either at the initial pair or at a scored
offset of the list. -/
lemma alignLoop_min (score : ℕ → Option ℚ) :
    ∀ (offs : List ℕ) (bestOff : ℕ) (bestErr : Option ℚ),
      (∀ k ∈ offs, score k ≠ some 0) →
      ((alignLoop score offs bestOff bestErr).2 = bestErr ∧
          (alignLoop score offs bestOff bestErr).1 = bestOff ∨
        ∃ q, (alignLoop score offs bestOff bestErr).2 = some q ∧
          score (alignLoop score offs bestOff bestErr).1 = some q ∧
          (alignLoop score offs bestOff bestErr).1 ∈ offs) ∧
      optLE (alignLoop score offs bestOff bestErr).2 bestErr ∧
      ∀ k ∈ offs, optLE (alignLoop score offs bestOff bestErr).2 (score k) := by
  intro offs
  induction offs with
  | nil =>
    intro bestOff bestErr _
    refine ⟨Or.inl ⟨rfl, rfl⟩, fun q hq => ⟨q, hq, le_refl q⟩, ?_⟩
    intro k hk
    simp at hk
  | cons o os ih =>
    intro bestOff bestErr hz
    have hzo : score o ≠ some 0 := hz o (List.mem_cons_self o os)
    have hzos : ∀ k ∈ os, score k ≠ some 0 := fun k hk => hz k (List.mem_cons_of_mem o hk)
    cases hso : score o with
    | none =>
      have heq : alignLoop score (o :: os) bestOff bestErr =
          alignLoop score os bestOff bestErr := by
        simp [alignLoop, hso]
      obtain ⟨hatt, hbnd, hall⟩ := ih bestOff bestErr hzos
      rw [heq]
      refine ⟨?_, hbnd, ?_⟩
      · rcases hatt with h | ⟨q, h1, h2, h3⟩
        · exact Or.inl h
        · exact Or.inr ⟨q, h1, h2, List.mem_cons_of_mem o h3⟩
      · intro k hk
        rcases List.mem_cons.mp hk with rfl | hk2
        · intro q hq
          rw [hso] at hq
          exact absurd hq (by simp)
        · exact hall k hk2
    | some e =>
      have he0 : e ≠ 0 := fun h => hzo (h ▸ hso)
      by_cases hlt : ltInf e bestErr = true
      · have heq : alignLoop score (o :: os) bestOff bestErr =
            alignLoop score os o (some e) := by
          simp [alignLoop, hso, hlt, he0]
        obtain ⟨hatt, hbnd, hall⟩ := ih o (some e) hzos
        rw [heq]
        refine ⟨?_, ?_, ?_⟩
        · rcases hatt with ⟨h2, h1⟩ | ⟨q, h1, h2, h3⟩
          · exact Or.inr ⟨e, h2, by rw [h1]; exact hso,
              by rw [h1]; exact List.mem_cons_self o os⟩
          · exact Or.inr ⟨q, h1, h2, List.mem_cons_of_mem o h3⟩
        · intro q hq
          subst hq
          have helt : e < q := by
            simpa [ltInf] using hlt
          obtain ⟨qb, hqb1, hqb2⟩ := hbnd e rfl
          exact ⟨qb, hqb1, le_of_lt (lt_of_le_of_lt hqb2 helt)⟩
        · intro k hk
          rcases List.mem_cons.mp hk with rfl | hk2
          · intro q hq
            rw [hso] at hq
            have heq2 : e = q := Option.some_inj.mp hq
            obtain ⟨qb, hqb1, hqb2⟩ := hbnd e rfl
            exact ⟨qb, hqb1, heq2 ▸ hqb2⟩
          · exact hall k hk2
      · have hble : ∃ b, bestErr = some b ∧ b ≤ e := by
          cases hbe : bestErr with
          | none => exact absurd (by rw [hbe] at hlt; exact hlt rfl) (by simp)
          | some b =>
            refine ⟨b, rfl, ?_⟩
            rw [hbe] at hlt
            simp only [ltInf, decide_eq_true_eq] at hlt
            exact le_of_not_lt hlt
        have heq : alignLoop score (o :: os) bestOff bestErr =
            alignLoop score os bestOff bestErr := by
          simp [alignLoop, hso, hlt]
        obtain ⟨hatt, hbnd, hall⟩ := ih bestOff bestErr hzos
        rw [heq]
        refine ⟨?_, hbnd, ?_⟩
        · rcases hatt with h | ⟨q, h1, h2, h3⟩
          · exact Or.inl h
          · exact Or.inr ⟨q, h1, h2, List.mem_cons_of_mem o h3⟩
        · intro k hk
          rcases List.mem_cons.mp hk with rfl | hk2
          · intro q hq
            rw [hso] at hq
            have heq2 : e = q := Option.some_inj.mp hq
            obtain ⟨b, hb1, hb2⟩ := hble
            obtain ⟨qb, hqb1, hqb2⟩ := hbnd b hb1
            exact ⟨qb, hqb1, heq2 ▸ le_trans hqb2 hb2⟩
          · exact hall k hk2

/-- Every nonempty decidable subset of a list has a first decomposition. -/
lemma exists_first_decomp (p : ℕ → Prop) [DecidablePred p] :
    ∀ (l : List ℕ), (∃ x ∈ l, p x) →
      ∃ pre z post, l = pre ++ z :: post ∧ p z ∧ ∀ k ∈ pre, ¬p k := by
  intro l
  induction l with
  | nil =>
    intro h
    simp at h
  | cons a l ih =>
    intro h
    by_cases hpa : p a
    · exact ⟨[], a, l, rfl, hpa, by simp⟩
    · have h2 : ∃ x ∈ l, p x := by
        obtain ⟨x, hx1, hx2⟩ := h
        rcases List.mem_cons.mp hx1 with rfl | hx3
        · exact absurd hx2 hpa
        · exact ⟨x, hx3, hx2⟩
      obtain ⟨pre, z, post, hdec, hz, hpre⟩ := ih h2
      refine ⟨a :: pre, z, post, by rw [hdec, List.cons_append], hz, ?_⟩
      intro k hk
      rcases List.mem_cons.mp hk with rfl | hk2
      · exact hpa
      · exact hpre k hk2

/-- The per-run score function of `_best_alignment_offset`: the chunk
length, window starts and per-offset score derived from its inputs. -/
def alignScore (observed : List ℕ) (resolved : List Bool) (expected : List ℕ)
    (sampleLen : ℕ) : ℕ → Option ℚ :=
  scoreOf observed resolved expected (chunkLenOf observed.length sampleLen)
    (startsOf observed.length (chunkLenOf observed.length sampleLen))

/-- The per-run clamped candidate offset list of `_best_alignment_offset`. -/
def alignOffsets (observed expected : List ℕ) (maxOffset sampleLen : ℕ) : List ℕ :=
  candidateOffsets observed.length (chunkLenOf observed.length sampleLen)
    expected.length maxOffset

/-- C2: on non-empty streams (and a positive chunk length) the alignment
search succeeds and returns an offset/error pair such that (i) the error
is a lower bound of the score of every candidate offset in the clamped
range — every candidate is taken into account; (ii) the error is attained:
either no offset scored (error `inf`, offset 0) or the returned offset has
exactly the returned score; (iii) as soon as some offset scores exactly
zero (all earlier candidates being non-zero), the search stops there and
returns that offset with error zero.  The score of an offset is, by
definition (`scoreOf`/`windowErr`/`startsOf`), the average over up to 4
sample windows (stream start, two interior points, stream end) of the mean
absolute error over resolved samples only, windows with no resolved
samples being skipped. -/
theorem best_alignment_spec (observed : List ℕ) (resolved : List Bool) (expected : List ℕ)
    (maxOffset sampleLen : ℕ)
    (hobs : observed.length ≠ 0) (hexp : expected.length ≠ 0)
    (hchunk : chunkLenOf observed.length sampleLen ≠ 0) :
    ∃ off err,
      best_alignment_offset observed resolved expected maxOffset sampleLen = .ok (off, err) ∧
      (∀ k ∈ alignOffsets observed expected maxOffset sampleLen, ∀ q,
        alignScore observed resolved expected sampleLen k = some q →
        ∃ qb, err = some qb ∧ qb ≤ q) ∧
      ((err = none ∧ off = 0) ∨
        ∃ q, err = some q ∧ alignScore observed resolved expected sampleLen off = some q ∧
          off ∈ alignOffsets observed expected maxOffset sampleLen) ∧
      (∀ pre z post,
        alignOffsets observed expected maxOffset sampleLen = pre ++ z :: post →
        (∀ k ∈ pre, alignScore observed resolved expected sampleLen k ≠ some 0) →
        alignScore observed resolved expected sampleLen z = some 0 →
        off = z ∧ err = some 0) := by
  have hnn : ∀ k q, alignScore observed resolved expected sampleLen k = some q → 0 ≤ q :=
    fun k q h => scoreOf_nonneg observed resolved expected _ _ k q h
  have hok : best_alignment_offset observed resolved expected maxOffset sampleLen =
      .ok (alignLoop (alignScore observed resolved expected sampleLen)
        (alignOffsets observed expected maxOffset sampleLen) 0 none) := by
    unfold best_alignment_offset
    rw [if_neg (not_or.mpr ⟨hobs, hexp⟩)]
    exact if_neg hchunk
  refine ⟨(alignLoop (alignScore observed resolved expected sampleLen)
      (alignOffsets observed expected maxOffset sampleLen) 0 none).1,
    (alignLoop (alignScore observed resolved expected sampleLen)
      (alignOffsets observed expected maxOffset sampleLen) 0 none).2,
    by rw [hok], ?_, ?_, ?_⟩
  · by_cases hex : ∃ k ∈ alignOffsets observed expected maxOffset sampleLen,
        alignScore observed resolved expected sampleLen k = some 0
    · obtain ⟨pre, z, post, hdec, hz, hpre⟩ :=
        exists_first_decomp
          (fun k => alignScore observed resolved expected sampleLen k = some 0) _ hex
      have hres := alignLoop_first_zero
        (alignScore observed resolved expected sampleLen) hnn pre z post 0 none
        (fun q hq => absurd hq (by simp)) hpre hz
      rw [hdec, hres]
      intro k _ q hq
      exact ⟨0, rfl, hnn k q hq⟩
    · push_neg at hex
      obtain ⟨_, _, hall⟩ := alignLoop_min
        (alignScore observed resolved expected sampleLen) _ 0 none hex
      exact fun k hk q hq => hall k hk q hq
  · by_cases hex : ∃ k ∈ alignOffsets observed expected maxOffset sampleLen,
        alignScore observed resolved expected sampleLen k = some 0
    · obtain ⟨pre, z, post, hdec, hz, hpre⟩ :=
        exists_first_decomp
          (fun k => alignScore observed resolved expected sampleLen k = some 0) _ hex
      have hres := alignLoop_first_zero
        (alignScore observed resolved expected sampleLen) hnn pre z post 0 none
        (fun q hq => absurd hq (by simp)) hpre hz
      rw [hdec, hres]
      refine Or.inr ⟨0, rfl, hz, ?_⟩
      exact List.mem_append_right pre (List.mem_cons_self z post)
    · push_neg at hex
      obtain ⟨hatt, _, _⟩ := alignLoop_min
        (alignScore observed resolved expected sampleLen) _ 0 none hex
      rcases hatt with ⟨h2, h1⟩ | ⟨q, h1, h2, h3⟩
      · exact Or.inl ⟨h2, h1⟩
      · exact Or.inr ⟨q, h1, h2, h3⟩
  · intro pre z post hdec hpre hz
    have hres := alignLoop_first_zero
      (alignScore observed resolved expected sampleLen) hnn pre z post 0 none
      (fun q hq => absurd hq (by simp)) hpre hz
    rw [hdec, hres]
    exact ⟨rfl, rfl⟩

/-- Witness for C2 on concrete aligned streams. -/
theorem best_alignment_spec_witness :
    ∃ off err,
      best_alignment_offset [1, 2] [true, true] [1, 2] 0 8 = .ok (off, err) ∧
      (∀ k ∈ alignOffsets [1, 2] [1, 2] 0 8, ∀ q,
        alignScore [1, 2] [true, true] [1, 2] 8 k = some q →
        ∃ qb, err = some qb ∧ qb ≤ q) ∧
      ((err = none ∧ off = 0) ∨
        ∃ q, err = some q ∧ alignScore [1, 2] [true, true] [1, 2] 8 off = some q ∧
          off ∈ alignOffsets [1, 2] [1, 2] 0 8) ∧
      (∀ pre z post,
        alignOffsets [1, 2] [1, 2] 0 8 = pre ++ z :: post →
        (∀ k ∈ pre, alignScore [1, 2] [true, true] [1, 2] 8 k ≠ some 0) →
        alignScore [1, 2] [true, true] [1, 2] 8 z = some 0 →
        off = z ∧ err = some 0) :=
  best_alignment_spec [1, 2] [true, true] [1, 2] 0 8 (by decide) (by decide) (by decide)

/-! ## Comparator: the masked comparison of
`test_gaussian_stage_real_image_1080p` (`tests/test_gaussian_real_image.py`,
compare section) -/

/-- The failures the comparison section can raise: the out-of-range guard
on `compare_len`, the degenerate-mask guard, and the final tolerance
assertion. -/
inductive CompareErr where
  | alignmentOutOfRange
  | noComparableSamples
  | toleranceExceeded
deriving DecidableEq, Repr

/-- Half width of the fixed 5×5 kernel, `5 // 2 = 2`
(the spec's `kernel_half_width`). -/
def kernel_half_width : ℕ := 5 / 2

/-- `compare_len = min(observed.size, expected_flat.size - offset)`;
`0` exactly when the Python value is `≤ 0`. -/
def compareLenOf (obsLen expLen offset : ℕ) : ℕ := min obsLen (expLen - offset)

/-- The comparison mask at sample `i`: the sample is resolved and, with
`idx = i + offset`, `col = idx % W` and `row = idx // W`, both
`4 ≤ col < W - 4` and `4 ≤ row < H - 4` hold (the code's interior margin
is 4 pixels on every frame edge). -/
def comparatorMask (resolved : List Bool) (offset W H i : ℕ) : Bool :=
  resolved.getD i false &&
    decide (4 ≤ (i + offset) % W) && decide ((i + offset) % W < W - 4) &&
    decide (4 ≤ (i + offset) / W) && decide ((i + offset) / W < H - 4)

/-- The mask the claim describes: resolved samples whose row and column
both lie at least `kernel_half_width` away from every frame edge. -/
def claimMask (resolved : List Bool) (offset W H i : ℕ) : Bool :=
  resolved.getD i false &&
    decide (kernel_half_width ≤ (i + offset) % W) &&
    decide ((i + offset) % W < W - kernel_half_width) &&
    decide (kernel_half_width ≤ (i + offset) / W) &&
    decide ((i + offset) / W < H - kernel_half_width)

/-- The sample indices below `compare_len` surviving the mask. -/
def comparatorMaskedIndices (resolved : List Bool) (offset W H cl : ℕ) : List ℕ :=
  (List.range cl).filter fun i => comparatorMask resolved offset W H i

/-- `int(diffs.max(initial=0))` over the masked absolute differences
between the captured and the offset-shifted reference stream. -/
def comparatorMaxDiff (observed expected : List ℕ) (offset : ℕ) (masked : List ℕ) : ℕ :=
  (masked.map fun i =>
    ((observed.getD i 0 : ℤ) - (expected.getD (offset + i) 0 : ℤ)).natAbs).foldr max 0

/-- The comparison section of the real-image test: raise when the aligned
window is out of range, raise when zero samples survive the mask
(a degenerate comparison is a failure, not a vacuous pass), and fail the
final assertion when the maximum masked difference exceeds the declared
tolerance of 1; otherwise report the compared-sample count and max
difference. -/
def compare_streams (observed : List ℕ) (resolved : List Bool) (expected : List ℕ)
    (offset W H : ℕ) : Except CompareErr (ℕ × ℕ) :=
  if compareLenOf observed.length expected.length offset = 0 then
    .error .alignmentOutOfRange
  else if (comparatorMaskedIndices resolved offset W H
      (compareLenOf observed.length expected.length offset)).length = 0 then
    .error .noComparableSamples
  else if comparatorMaxDiff observed expected offset
      (comparatorMaskedIndices resolved offset W H
        (compareLenOf observed.length expected.length offset)) ≤ 1 then
    .ok ((comparatorMaskedIndices resolved offset W H
        (compareLenOf observed.length expected.length offset)).length,
      comparatorMaxDiff observed expected offset
        (comparatorMaskedIndices resolved offset W H
          (compareLenOf observed.length expected.length offset)))
  else .error .toleranceExceeded

/-- C3 counterexample: the code's interior margin is 4 pixels, not
`kernel_half_width = 2`.  In a 10×10 frame at offset 0, the fully resolved
sample of row 2, column 2 (index 22) is at distance exactly
`kernel_half_width` from the top and left edges: the claim's mask keeps
it, the comparator's mask drops it. -/
theorem comparator_mask_narrower_than_claim :
    kernel_half_width = 2 ∧
    claimMask (List.replicate 100 true) 0 10 10 22 = true ∧
    comparatorMask (List.replicate 100 true) 0 10 10 22 = false := by
  decide

/-- C3 (amended): the comparator restricts the per-sample comparison to
samples that are resolved and whose row and column both lie at least **4**
pixels (`kernel_size - 1`, twice the kernel half width) away from every
frame edge; it fails when zero samples survive this mask, and fails when
the maximum masked difference exceeds the declared tolerance of 1. -/
theorem comparator_contract (observed : List ℕ) (resolved : List Bool) (expected : List ℕ)
    (offset W H : ℕ) :
    (∀ i, comparatorMask resolved offset W H i = true ↔
      resolved.getD i false = true ∧
      4 ≤ (i + offset) % W ∧ (i + offset) % W < W - 4 ∧
      4 ≤ (i + offset) / W ∧ (i + offset) / W < H - 4) ∧
    (compareLenOf observed.length expected.length offset = 0 →
      compare_streams observed resolved expected offset W H =
        .error .alignmentOutOfRange) ∧
    (compareLenOf observed.length expected.length offset ≠ 0 →
      (comparatorMaskedIndices resolved offset W H
          (compareLenOf observed.length expected.length offset)).length = 0 →
      compare_streams observed resolved expected offset W H =
        .error .noComparableSamples) ∧
    (compareLenOf observed.length expected.length offset ≠ 0 →
      (comparatorMaskedIndices resolved offset W H
          (compareLenOf observed.length expected.length offset)).length ≠ 0 →
      1 < comparatorMaxDiff observed expected offset
        (comparatorMaskedIndices resolved offset W H
          (compareLenOf observed.length expected.length offset)) →
      compare_streams observed resolved expected offset W H =
        .error .toleranceExceeded) ∧
    (compareLenOf observed.length expected.length offset ≠ 0 →
      (comparatorMaskedIndices resolved offset W H
          (compareLenOf observed.length expected.length offset)).length ≠ 0 →
      comparatorMaxDiff observed expected offset
        (comparatorMaskedIndices resolved offset W H
          (compareLenOf observed.length expected.length offset)) ≤ 1 →
      compare_streams observed resolved expected offset W H =
        .ok ((comparatorMaskedIndices resolved offset W H
            (compareLenOf observed.length expected.length offset)).length,
          comparatorMaxDiff observed expected offset
            (comparatorMaskedIndices resolved offset W H
              (compareLenOf observed.length expected.length offset)))) := by
  refine ⟨?_, ?_, ?_, ?_, ?_⟩
  · intro i
    simp [comparatorMask, Bool.and_eq_true, decide_eq_true_eq, and_assoc]
  · intro h1
    rw [compare_streams, if_pos h1]
  · intro h1 h2
    rw [compare_streams, if_neg h1, if_pos h2]
  · intro h1 h2 h3
    rw [compare_streams, if_neg h1, if_neg h2, if_neg (by omega)]
  · intro h1 h2 h3
    rw [compare_streams, if_neg h1, if_neg h2, if_pos h3]

/-- Witness for C3 (amended): a frame too small for the interior margin
makes every sample non-comparable, and the comparison fails rather than
vacuously passing. -/
theorem comparator_contract_witness :
    compare_streams [5] [true] [5] 0 9 9 = .error .noComparableSamples :=
  (comparator_contract [5] [true] [5] 0 9 9).2.2.1 (by decide) (by decide)

end Ceda
